import Mathlib

/-!
Verification of the drstatecmp extension (src/ext/drstatecmp/drstatecmp.c):
machine-state comparison for detecting instrumentation-induced clobbering of
application state.

Shallow embedding.  The framework predicates the extension consumes
(instr_writes_memory, instr_is_interrupt, instr_is_syscall, instr_is_cti,
instr_is_return, instr_is_app) become Boolean fields of an instruction record;
the drmgr note attached to the label instructions created by
drstatecmp_insert_label becomes an Option field; the clean calls inserted by
dr_insert_clean_call become marker instructions tagged with their callee.
Instruction lists (instrlist_t) are Lean lists, and list mutation primitives
(clone, remove, preinsert, postinsert, append) act on the instruction
sequence.  The iteration order of instruction-list loops is the sequence order
of the list at loop entry.
-/

namespace Drstatecmp

/-- Label kinds, from the drstatecmp_label_t enum of the source. -/
inductive LabelKind where
  | TERM
  | ORIG_BB
  | COPY_BB
deriving DecidableEq

/-- Callees of the clean calls inserted by drstatecmp_check_reexecution:
save-state with for_cmp=false, save-state with for_cmp=true, restore-state,
and compare-state. -/
inductive CallKind where
  | saveForRestore
  | saveForCmp
  | restoreState
  | compareState
deriving DecidableEq

/-- One machine instruction, as observed through the framework predicates the
extension consumes.  The label field models the drmgr note set by
drstatecmp_insert_label (none for every instruction that does not carry one of
the reserved drstatecmp note values); the call field tags the clean-call
sequences inserted by dr_insert_clean_call with their callee. -/
structure Instr where
  isApp : Bool := false
  writesMemory : Bool := false
  isInterrupt : Bool := false
  isSyscall : Bool := false
  isCti : Bool := false
  isRet : Bool := false
  label : Option LabelKind := none
  call : Option CallKind := none
deriving DecidableEq

/-- Label instruction created by drstatecmp_insert_label: a meta (non-app)
instruction carrying the note for the given label kind. -/
def mkLabel (k : LabelKind) : Instr :=
  { isApp := false, label := some k }

/-- Clean-call marker inserted by dr_insert_clean_call: meta code that calls
the given callee and leaves no footprint in the compared machine state. -/
def mkCleanCall (c : CallKind) : Instr :=
  { isApp := false, call := some c }

/-- Side-effect classifier drstatecmp_may_have_side_effects_instr: an
instruction may have side effects iff it writes memory, is an interrupt, or
is a syscall. -/
def drstatecmp_may_have_side_effects_instr (i : Instr) : Bool :=
  i.writesMemory || i.isInterrupt || i.isSyscall

/-- Loop of drstatecmp_duplicate_bb over the clone: remove every
non-application (meta/instrumentation) instruction, keeping application
instructions in order. -/
def stripNonApp : List Instr → List Instr
  | [] => []
  | i :: rest => if i.isApp then i :: stripNonApp rest else stripNonApp rest

/-- Framework query instrlist_last_app: the last application instruction of a
list, or none when the list has no application instruction. -/
def instrlist_last_app : List Instr → Option Instr
  | [] => none
  | i :: rest =>
    match instrlist_last_app rest with
    | some j => some j
    | none => if i.isApp then some i else none

/-- Removal (instrlist_remove) of the last application instruction of a list,
as performed by drstatecmp_duplicate_bb on the original block terminator. -/
def removeLastApp : List Instr → List Instr
  | [] => []
  | i :: rest =>
    if (instrlist_last_app rest).isSome then i :: removeLastApp rest
    else if i.isApp then rest else i :: rest

/-- Insertion (instrlist_meta_preinsert) of a marker immediately before the
last application instruction of a list. -/
def insertBeforeLastApp (lab : Instr) : List Instr → List Instr
  | [] => [lab]
  | i :: rest =>
    if (instrlist_last_app rest).isSome then i :: insertBeforeLastApp lab rest
    else if i.isApp then lab :: i :: rest else i :: rest

/-- Insertion (instrlist_meta_postinsert) of a marker immediately after the
last application instruction of a list. -/
def insertAfterLastApp (lab : Instr) : List Instr → List Instr
  | [] => [lab]
  | i :: rest =>
    if (instrlist_last_app rest).isSome then i :: insertAfterLastApp lab rest
    else if i.isApp then i :: lab :: rest else i :: rest

/-- Block duplication transform drstatecmp_duplicate_bb.  Clones the block,
strips all non-app instructions from the clone, inserts the ORIG_BB label
before the first instruction of the block, the COPY_BB label before the first
instruction of the clone, and the TERM label before the terminator of the
clone (or after its last instruction when the block falls through); deletes
the terminator of the original block (if any), and appends the clone onto the
original.  The source calls instr_is_cti and instr_is_return on the result of
instrlist_last_app with no NULL check; the none branches of the two matches
model that NULL dereference (the crash), so the function returns an Option. -/
def drstatecmp_duplicate_bb (bb : List Instr) : Option (List Instr) :=
  let copy_bb := stripNonApp bb
  let bb1 := mkLabel LabelKind.ORIG_BB :: bb
  let copy1 := mkLabel LabelKind.COPY_BB :: copy_bb
  match instrlist_last_app copy1 with
  | none => none
  | some term_inst_copy_bb =>
    let preins := term_inst_copy_bb.isCti || term_inst_copy_bb.isRet
    let copy2 :=
      if preins then insertBeforeLastApp (mkLabel LabelKind.TERM) copy1
      else insertAfterLastApp (mkLabel LabelKind.TERM) copy1
    match instrlist_last_app bb1 with
    | none => none
    | some term_inst =>
      let bb2 := if term_inst.isCti || term_inst.isRet then removeLastApp bb1 else bb1
      some (bb2 ++ copy2)

/-- Insertion performed by dr_insert_clean_call at a label position: the
clean-call sequence for callee c is placed immediately before the (unique)
instruction carrying the note of label kind k. -/
def dr_insert_clean_call (c : CallKind) (k : LabelKind) : List Instr → List Instr
  | [] => []
  | i :: rest =>
    if i.label = some k then mkCleanCall c :: i :: rest
    else i :: dr_insert_clean_call c k rest

/-- Protocol insertion drstatecmp_check_reexecution: save state (for restore)
at the ORIG_BB label, save state (for cmp) then restore state at the COPY_BB
label, and compare state at the TERM label, in source order. -/
def drstatecmp_check_reexecution (bb : List Instr) : List Instr :=
  dr_insert_clean_call CallKind.compareState LabelKind.TERM
    (dr_insert_clean_call CallKind.restoreState LabelKind.COPY_BB
      (dr_insert_clean_call CallKind.saveForCmp LabelKind.COPY_BB
        (dr_insert_clean_call CallKind.saveForRestore LabelKind.ORIG_BB bb)))

/-- Gate loop of drstatecmp_post_instru_phase: walk the application
instructions (instrlist_first_app / instr_get_next_app) and report the block
side-effect free iff no application instruction may have side effects. -/
def side_effect_free_loop : List Instr → Bool
  | [] => true
  | i :: rest =>
    if i.isApp && drstatecmp_may_have_side_effects_instr i then false
    else side_effect_free_loop rest

/-- Entry point drstatecmp_post_instru_phase: classify the block by its
application instructions; side-effect-free blocks get the duplication and
re-execution-check transform, blocks with side effects are left unchanged
(the side-effect handler is an empty stub). -/
def drstatecmp_post_instru_phase (bb : List Instr) : Option (List Instr) :=
  if side_effect_free_loop bb then
    (drstatecmp_duplicate_bb bb).map drstatecmp_check_reexecution
  else
    some bb

/-! Basic facts about the list helpers. -/

theorem stripNonApp_eq_filter (l : List Instr) :
    stripNonApp l = l.filter (fun i => i.isApp) := by
  induction l with
  | nil => rfl
  | cons i rest ih =>
    by_cases h : i.isApp <;> simp [stripNonApp, List.filter_cons, h, ih]

theorem stripNonApp_all_app {l : List Instr} {i : Instr}
    (h : i ∈ stripNonApp l) : i.isApp = true := by
  rw [stripNonApp_eq_filter] at h
  exact (List.mem_filter.mp h).2

theorem mem_stripNonApp {l : List Instr} {i : Instr}
    (h : i ∈ stripNonApp l) : i ∈ l := by
  rw [stripNonApp_eq_filter] at h
  exact (List.mem_filter.mp h).1

theorem stripNonApp_append (l m : List Instr) :
    stripNonApp (l ++ m) = stripNonApp l ++ stripNonApp m := by
  simp [stripNonApp_eq_filter, List.filter_append]

theorem stripNonApp_sublist (l : List Instr) :
    List.Sublist (stripNonApp l) l := by
  rw [stripNonApp_eq_filter]; exact List.filter_sublist l

/-- Claim C1.  The side-effect classifier returns true iff the instruction
writes memory, is an interrupt, or is a syscall; no other property of the
instruction affects the result. -/
theorem may_have_side_effects_iff (i : Instr) :
    (drstatecmp_may_have_side_effects_instr i = true ↔
      (i.writesMemory = true ∨ i.isInterrupt = true ∨ i.isSyscall = true)) ∧
    (∀ j : Instr, j.writesMemory = i.writesMemory →
      j.isInterrupt = i.isInterrupt → j.isSyscall = i.isSyscall →
      drstatecmp_may_have_side_effects_instr j =
        drstatecmp_may_have_side_effects_instr i) := by
  constructor
  · simp [drstatecmp_may_have_side_effects_instr, or_assoc]
  · intro j h1 h2 h3
    simp [drstatecmp_may_have_side_effects_instr, h1, h2, h3]

/-- Example application instruction: a register-only move (no memory write,
no interrupt, no syscall, not a control transfer). -/
def iMov : Instr := { isApp := true }

/-- Example application instruction: a return. -/
def iRet : Instr := { isApp := true, isRet := true }

/-- Example application instruction: a direct jump. -/
def iJmp : Instr := { isApp := true, isCti := true }

/-- Example application instruction: a store to memory. -/
def iStore : Instr := { isApp := true, writesMemory := true }

/-- Example meta (instrumentation) instruction that writes memory. -/
def iMetaStore : Instr := { isApp := false, writesMemory := true }

/-- Example meta (instrumentation) instruction with no side effects. -/
def iMeta : Instr := { isApp := false }

/-- Witness for claim C1 at a concrete instruction. -/
theorem may_have_side_effects_iff_witness :
    (drstatecmp_may_have_side_effects_instr iStore = true ↔
      (iStore.writesMemory = true ∨ iStore.isInterrupt = true ∨
        iStore.isSyscall = true)) ∧
    (∀ j : Instr, j.writesMemory = iStore.writesMemory →
      j.isInterrupt = iStore.isInterrupt → j.isSyscall = iStore.isSyscall →
      drstatecmp_may_have_side_effects_instr j =
        drstatecmp_may_have_side_effects_instr iStore) :=
  may_have_side_effects_iff iStore

/-- Claim C4.  The clean copy built by drstatecmp_duplicate_bb contains
exactly the application instructions of the block, in their original order,
with every non-application instruction removed. -/
theorem duplicate_bb_clone_app_only (bb : List Instr) :
    stripNonApp bb = bb.filter (fun i => i.isApp) ∧
    List.Sublist (stripNonApp bb) bb ∧
    (∀ i ∈ stripNonApp bb, i.isApp = true) ∧
    (∀ i ∈ bb, i.isApp = true → i ∈ stripNonApp bb) := by
  refine ⟨stripNonApp_eq_filter bb, stripNonApp_sublist bb, ?_, ?_⟩
  · intro i hi; exact stripNonApp_all_app hi
  · intro i hi happ
    rw [stripNonApp_eq_filter]
    exact List.mem_filter.mpr ⟨hi, happ⟩

/-- Witness for claim C4 at a concrete block. -/
theorem duplicate_bb_clone_app_only_witness :
    stripNonApp [iMov, iMetaStore, iRet] =
      List.filter (fun i => i.isApp) [iMov, iMetaStore, iRet] ∧
    List.Sublist (stripNonApp [iMov, iMetaStore, iRet]) [iMov, iMetaStore, iRet] ∧
    (∀ i ∈ stripNonApp [iMov, iMetaStore, iRet], i.isApp = true) ∧
    (∀ i ∈ [iMov, iMetaStore, iRet], i.isApp = true →
      i ∈ stripNonApp [iMov, iMetaStore, iRet]) :=
  duplicate_bb_clone_app_only [iMov, iMetaStore, iRet]

/-! Facts about instrlist_last_app. -/

theorem instrlist_last_app_cons_of_some {l : List Instr} {j : Instr}
    (h : instrlist_last_app l = some j) (i : Instr) :
    instrlist_last_app (i :: l) = some j := by
  simp [instrlist_last_app, h]

theorem instrlist_last_app_cons_of_none {l : List Instr}
    (h : instrlist_last_app l = none) (i : Instr) :
    instrlist_last_app (i :: l) = if i.isApp then some i else none := by
  simp [instrlist_last_app, h]

theorem instrlist_last_app_eq_none_iff (l : List Instr) :
    instrlist_last_app l = none ↔ ∀ i ∈ l, i.isApp = false := by
  induction l with
  | nil => simp [instrlist_last_app]
  | cons i rest ih =>
    cases h : instrlist_last_app rest with
    | none =>
      rw [instrlist_last_app_cons_of_none h]
      rw [h] at ih
      have hrest : ∀ a ∈ rest, a.isApp = false := ih.mp rfl
      by_cases happ : i.isApp
      · rw [if_pos happ]
        simp only [List.forall_mem_cons]
        constructor
        · intro hc; exact absurd hc (by simp)
        · intro hall; rw [hall.1] at happ; cases happ
      · have hf : i.isApp = false := by simpa using happ
        rw [if_neg happ]
        constructor
        · intro _; exact List.forall_mem_cons.mpr ⟨hf, hrest⟩
        · intro _; rfl
    | some j =>
      rw [instrlist_last_app_cons_of_some h]
      constructor
      · intro hc; exact absurd hc (by simp)
      · intro hall
        have : instrlist_last_app rest = none := by
          rw [ih]; intro a ha; exact hall a (by simp [ha])
        rw [this] at h; exact absurd h (by simp)

theorem instrlist_last_app_cons_meta {i : Instr} (hi : i.isApp = false)
    (l : List Instr) : instrlist_last_app (i :: l) = instrlist_last_app l := by
  cases h : instrlist_last_app l with
  | none => rw [instrlist_last_app_cons_of_none h, hi]; simp
  | some j => rw [instrlist_last_app_cons_of_some h]

theorem instrlist_last_app_strip (l : List Instr) :
    instrlist_last_app (stripNonApp l) = instrlist_last_app l := by
  induction l with
  | nil => rfl
  | cons i rest ih =>
    by_cases happ : i.isApp
    · simp only [stripNonApp, happ, if_true]
      cases h : instrlist_last_app rest with
      | none =>
        rw [instrlist_last_app_cons_of_none (ih.trans h),
          instrlist_last_app_cons_of_none h]
      | some j =>
        rw [instrlist_last_app_cons_of_some (ih.trans h),
          instrlist_last_app_cons_of_some h]
    · have hm : i.isApp = false := by simpa using happ
      rw [show stripNonApp (i :: rest) = stripNonApp rest by
        simp [stripNonApp, hm]]
      rw [ih, instrlist_last_app_cons_meta hm]

theorem instrlist_last_app_decomp {l : List Instr} {T : Instr}
    (h : instrlist_last_app l = some T) :
    T.isApp = true ∧ ∃ u v, l = u ++ T :: v ∧ ∀ i ∈ v, i.isApp = false := by
  induction l with
  | nil => exact absurd h (by simp [instrlist_last_app])
  | cons i rest ih =>
    cases hr : instrlist_last_app rest with
    | some j =>
      rw [instrlist_last_app_cons_of_some hr] at h
      obtain ⟨hT, u, v, hsplit, hv⟩ := ih (hr.trans (by injection h; simp [*]))
      exact ⟨hT, i :: u, v, by rw [hsplit]; rfl, hv⟩
    | none =>
      rw [instrlist_last_app_cons_of_none hr] at h
      by_cases happ : i.isApp
      · rw [if_pos happ] at h
        have hTi : T = i := by injection h; simp [*]
        subst hTi
        exact ⟨happ, [], rest, rfl,
          (instrlist_last_app_eq_none_iff rest).mp hr⟩
      · rw [if_neg happ] at h; exact absurd h (by simp)

theorem instrlist_last_app_mem {l : List Instr} {T : Instr}
    (h : instrlist_last_app l = some T) : T ∈ l := by
  obtain ⟨_, u, v, hsplit, _⟩ := instrlist_last_app_decomp h
  rw [hsplit]; simp

theorem instrlist_last_app_append_isSome {u v : List Instr} {T : Instr}
    (hT : T.isApp = true) :
    (instrlist_last_app (u ++ T :: v)).isSome = true := by
  cases h : instrlist_last_app (u ++ T :: v) with
  | some j => rfl
  | none =>
    have := (instrlist_last_app_eq_none_iff _).mp h T (by simp)
    rw [hT] at this; exact absurd this (by simp)

/-! Facts about removeLastApp and the two terminator-label insertions. -/

theorem removeLastApp_decomp {T : Instr} (hT : T.isApp = true)
    (u : List Instr) {v : List Instr} (hv : ∀ i ∈ v, i.isApp = false) :
    removeLastApp (u ++ T :: v) = u ++ v := by
  induction u with
  | nil =>
    have hnone : instrlist_last_app v = none :=
      (instrlist_last_app_eq_none_iff v).mpr hv
    simp [removeLastApp, hnone, hT]
  | cons x u ih =>
    have hsome : (instrlist_last_app (u ++ T :: v)).isSome = true :=
      instrlist_last_app_append_isSome hT
    simpa [removeLastApp, hsome] using ih

theorem mem_removeLastApp {l : List Instr} {i : Instr}
    (h : i ∈ removeLastApp l) : i ∈ l := by
  induction l with
  | nil => simp [removeLastApp] at h
  | cons x rest ih =>
    by_cases hs : (instrlist_last_app rest).isSome
    · rw [removeLastApp, if_pos hs] at h
      rcases List.mem_cons.mp h with hx | hr
      · simp [hx]
      · simp [ih hr]
    · rw [removeLastApp, if_neg hs] at h
      by_cases happ : x.isApp
      · rw [if_pos happ] at h; simp [h]
      · rw [if_neg happ] at h; exact h

theorem insertBeforeLastApp_decomp {T : Instr} (lab : Instr)
    (hT : T.isApp = true) (u : List Instr) {v : List Instr}
    (hv : ∀ i ∈ v, i.isApp = false) :
    insertBeforeLastApp lab (u ++ T :: v) = u ++ lab :: T :: v := by
  induction u with
  | nil =>
    have hnone : instrlist_last_app v = none :=
      (instrlist_last_app_eq_none_iff v).mpr hv
    simp [insertBeforeLastApp, hnone, hT]
  | cons x u ih =>
    have hsome : (instrlist_last_app (u ++ T :: v)).isSome = true :=
      instrlist_last_app_append_isSome hT
    simpa [insertBeforeLastApp, hsome] using ih

theorem insertAfterLastApp_decomp {T : Instr} (lab : Instr)
    (hT : T.isApp = true) (u : List Instr) {v : List Instr}
    (hv : ∀ i ∈ v, i.isApp = false) :
    insertAfterLastApp lab (u ++ T :: v) = u ++ T :: lab :: v := by
  induction u with
  | nil =>
    have hnone : instrlist_last_app v = none :=
      (instrlist_last_app_eq_none_iff v).mpr hv
    simp [insertAfterLastApp, hnone, hT]
  | cons x u ih =>
    have hsome : (instrlist_last_app (u ++ T :: v)).isSome = true :=
      instrlist_last_app_append_isSome hT
    simpa [insertAfterLastApp, hsome] using ih

theorem stripNonApp_eq_nil_of_meta {v : List Instr}
    (hv : ∀ i ∈ v, i.isApp = false) : stripNonApp v = [] := by
  rw [stripNonApp_eq_filter]
  exact List.filter_eq_nil_iff.mpr (fun a ha => by simp [hv a ha])

/-! Explicit result of drstatecmp_duplicate_bb in the two cases of the
transform: block ending in a control-transfer or return, and fall-through
block. -/

theorem duplicate_bb_shape_cti {bb : List Instr} {T : Instr}
    (hT : instrlist_last_app bb = some T)
    (hc : (T.isCti || T.isRet) = true) :
    drstatecmp_duplicate_bb bb =
      some (mkLabel LabelKind.ORIG_BB :: removeLastApp bb ++
        mkLabel LabelKind.COPY_BB :: (stripNonApp (removeLastApp bb) ++
          mkLabel LabelKind.TERM :: T :: [])) := by
  obtain ⟨hTapp, u, v, hsplit, hv⟩ := instrlist_last_app_decomp hT
  have hstripv : stripNonApp v = [] := stripNonApp_eq_nil_of_meta hv
  have hstrip : stripNonApp bb = stripNonApp u ++ T :: [] := by
    rw [hsplit, stripNonApp_append]
    simp [stripNonApp, hTapp, hstripv]
  have hrm : removeLastApp bb = u ++ v := by
    rw [hsplit]; exact removeLastApp_decomp hTapp u hv
  have hsu : stripNonApp (removeLastApp bb) = stripNonApp u := by
    rw [hrm, stripNonApp_append, hstripv, List.append_nil]
  have hcopyl : (mkLabel LabelKind.COPY_BB).isApp = false := rfl
  have horig : (mkLabel LabelKind.ORIG_BB).isApp = false := rfl
  have h1 : instrlist_last_app
      (mkLabel LabelKind.COPY_BB :: stripNonApp bb) = some T := by
    rw [instrlist_last_app_cons_meta hcopyl, instrlist_last_app_strip, hT]
  have h2 : instrlist_last_app (mkLabel LabelKind.ORIG_BB :: bb) = some T := by
    rw [instrlist_last_app_cons_meta horig, hT]
  have hins : insertBeforeLastApp (mkLabel LabelKind.TERM)
      (mkLabel LabelKind.COPY_BB :: stripNonApp bb) =
      mkLabel LabelKind.COPY_BB :: (stripNonApp (removeLastApp bb) ++
        mkLabel LabelKind.TERM :: T :: []) := by
    rw [hstrip, hsu]
    have h3 := insertBeforeLastApp_decomp (mkLabel LabelKind.TERM) hTapp
      (mkLabel LabelKind.COPY_BB :: stripNonApp u)
      (v := []) (by intro i hi; cases hi)
    simpa using h3
  have hrm2 : removeLastApp (mkLabel LabelKind.ORIG_BB :: bb) =
      mkLabel LabelKind.ORIG_BB :: removeLastApp bb := by
    have hs : (instrlist_last_app bb).isSome = true := by rw [hT]; rfl
    simp [removeLastApp, hs]
  unfold drstatecmp_duplicate_bb
  simp only [h1, h2, hc, if_true, hins, hrm2]

theorem duplicate_bb_shape_fall {bb : List Instr} {T : Instr}
    (hT : instrlist_last_app bb = some T)
    (hc : (T.isCti || T.isRet) = false) :
    drstatecmp_duplicate_bb bb =
      some (mkLabel LabelKind.ORIG_BB :: bb ++
        mkLabel LabelKind.COPY_BB :: (stripNonApp bb ++
          mkLabel LabelKind.TERM :: [])) := by
  obtain ⟨hTapp, u, v, hsplit, hv⟩ := instrlist_last_app_decomp hT
  have hstripv : stripNonApp v = [] := stripNonApp_eq_nil_of_meta hv
  have hstrip : stripNonApp bb = stripNonApp u ++ T :: [] := by
    rw [hsplit, stripNonApp_append]
    simp [stripNonApp, hTapp, hstripv]
  have hcopyl : (mkLabel LabelKind.COPY_BB).isApp = false := rfl
  have horig : (mkLabel LabelKind.ORIG_BB).isApp = false := rfl
  have h1 : instrlist_last_app
      (mkLabel LabelKind.COPY_BB :: stripNonApp bb) = some T := by
    rw [instrlist_last_app_cons_meta hcopyl, instrlist_last_app_strip, hT]
  have h2 : instrlist_last_app (mkLabel LabelKind.ORIG_BB :: bb) = some T := by
    rw [instrlist_last_app_cons_meta horig, hT]
  have hins : insertAfterLastApp (mkLabel LabelKind.TERM)
      (mkLabel LabelKind.COPY_BB :: stripNonApp bb) =
      mkLabel LabelKind.COPY_BB :: (stripNonApp bb ++
        mkLabel LabelKind.TERM :: []) := by
    rw [hstrip]
    have h3 := insertAfterLastApp_decomp (mkLabel LabelKind.TERM) hTapp
      (mkLabel LabelKind.COPY_BB :: stripNonApp u)
      (v := []) (by intro i hi; cases hi)
    simpa using h3
  unfold drstatecmp_duplicate_bb
  simp only [h1, h2, hc, if_false, hins]
  simp

theorem filter_label_eq_nil {l : List Instr}
    (h : ∀ i ∈ l, i.label = none) :
    l.filter (fun i => (i.label).isSome) = [] :=
  List.filter_eq_nil_iff.mpr (fun a ha => by simp [h a ha])

/-- Claim C10.  drstatecmp_duplicate_bb calls instrlist_last_app on the clean
copy and on the original block and passes the results to instr_is_cti and
instr_is_return with no NULL check; the transform completes (does not
dereference NULL) precisely when the block has at least one application
instruction. -/
theorem duplicate_bb_requires_app_instr (bb : List Instr) :
    (drstatecmp_duplicate_bb bb).isSome = true ↔ ∃ i ∈ bb, i.isApp = true := by
  constructor
  · intro h
    cases hT : instrlist_last_app bb with
    | none =>
      exfalso
      have h1 : instrlist_last_app
          (mkLabel LabelKind.COPY_BB :: stripNonApp bb) = none := by
        rw [instrlist_last_app_cons_meta rfl, instrlist_last_app_strip, hT]
      unfold drstatecmp_duplicate_bb at h
      simp only [h1] at h
      simp at h
    | some T =>
      obtain ⟨hTapp, u, v, hsplit, _⟩ := instrlist_last_app_decomp hT
      exact ⟨T, by rw [hsplit]; simp, hTapp⟩
  · rintro ⟨i, hi, happ⟩
    cases hT : instrlist_last_app bb with
    | none =>
      have hf := (instrlist_last_app_eq_none_iff bb).mp hT i hi
      rw [happ] at hf; cases hf
    | some T =>
      by_cases hc : (T.isCti || T.isRet) = true
      · rw [duplicate_bb_shape_cti hT hc]; rfl
      · rw [duplicate_bb_shape_fall hT (by simpa using hc)]; rfl

/-- Witness for claim C10 at a concrete block. -/
theorem duplicate_bb_requires_app_instr_witness :
    ((drstatecmp_duplicate_bb [iMeta, iMov]).isSome = true ↔
      ∃ i ∈ [iMeta, iMov], i.isApp = true) :=
  duplicate_bb_requires_app_instr [iMeta, iMov]

/-- Claim C6.  Every duplicated block carries exactly one label of each of
the three kinds, in the order original-start, copy-start, terminator; no
control-transfer instruction is fabricated, and for a fall-through block the
terminator label is inserted after the last instruction of the clean copy. -/
theorem duplicate_bb_label_invariant (bb : List Instr) (T : Instr)
    (hno : ∀ i ∈ bb, i.label = none)
    (hT : instrlist_last_app bb = some T) :
    ∃ res, drstatecmp_duplicate_bb bb = some res ∧
      res.filter (fun i => (i.label).isSome) =
        [mkLabel LabelKind.ORIG_BB, mkLabel LabelKind.COPY_BB,
          mkLabel LabelKind.TERM] ∧
      (∀ i ∈ res, i.isCti = true → i ∈ bb) ∧
      ((T.isCti || T.isRet) = false →
        res.getLast? = some (mkLabel LabelKind.TERM)) := by
  have hTl : T.label = none := hno T (instrlist_last_app_mem hT)
  by_cases hc : (T.isCti || T.isRet) = true
  · refine ⟨_, duplicate_bb_shape_cti hT hc, ?_, ?_, ?_⟩
    · have hrmf : (removeLastApp bb).filter (fun i => (i.label).isSome) = [] :=
        filter_label_eq_nil (fun i hi => hno i (mem_removeLastApp hi))
      have hstf : (stripNonApp (removeLastApp bb)).filter
          (fun i => (i.label).isSome) = [] :=
        filter_label_eq_nil
          (fun i hi => hno i (mem_removeLastApp (mem_stripNonApp hi)))
      simp [List.filter_append, List.filter_cons, hrmf, hstf, hTl, mkLabel]
    · intro i hi hcti
      rcases List.mem_cons.mp hi with h1 | h1
      · subst h1; cases hcti
      rcases List.mem_append.mp h1 with h2 | h2
      · exact mem_removeLastApp h2
      rcases List.mem_cons.mp h2 with h3 | h3
      · subst h3; cases hcti
      rcases List.mem_append.mp h3 with h4 | h4
      · exact mem_removeLastApp (mem_stripNonApp h4)
      rcases List.mem_cons.mp h4 with h5 | h5
      · subst h5; cases hcti
      rcases List.mem_cons.mp h5 with h6 | h6
      · subst h6; exact instrlist_last_app_mem hT
      · cases h6
    · intro hfall; rw [hc] at hfall; cases hfall
  · have hcf : (T.isCti || T.isRet) = false := by simpa using hc
    refine ⟨_, duplicate_bb_shape_fall hT hcf, ?_, ?_, ?_⟩
    · have hbbf : bb.filter (fun i => (i.label).isSome) = [] :=
        filter_label_eq_nil hno
      have hstf : (stripNonApp bb).filter (fun i => (i.label).isSome) = [] :=
        filter_label_eq_nil (fun i hi => hno i (mem_stripNonApp hi))
      simp [List.filter_append, List.filter_cons, hbbf, hstf, mkLabel]
    · intro i hi hcti
      rcases List.mem_cons.mp hi with h1 | h1
      · subst h1; cases hcti
      rcases List.mem_append.mp h1 with h2 | h2
      · exact h2
      rcases List.mem_cons.mp h2 with h3 | h3
      · subst h3; cases hcti
      rcases List.mem_append.mp h3 with h4 | h4
      · exact mem_stripNonApp h4
      rcases List.mem_cons.mp h4 with h5 | h5
      · subst h5; cases hcti
      · cases h5
    · intro _
      have hshape : mkLabel LabelKind.ORIG_BB :: bb ++
          mkLabel LabelKind.COPY_BB :: (stripNonApp bb ++
            mkLabel LabelKind.TERM :: []) =
          (mkLabel LabelKind.ORIG_BB :: bb ++
            mkLabel LabelKind.COPY_BB :: stripNonApp bb) ++
            [mkLabel LabelKind.TERM] := by simp
      rw [hshape, List.getLast?_concat]

/-- Witness for claim C6 at a concrete fall-through block. -/
theorem duplicate_bb_label_invariant_witness :
    ∃ res, drstatecmp_duplicate_bb [iMov, iMeta, iMov] = some res ∧
      res.filter (fun i => (i.label).isSome) =
        [mkLabel LabelKind.ORIG_BB, mkLabel LabelKind.COPY_BB,
          mkLabel LabelKind.TERM] ∧
      (∀ i ∈ res, i.isCti = true → i ∈ [iMov, iMeta, iMov]) ∧
      ((iMov.isCti || iMov.isRet) = false →
        res.getLast? = some (mkLabel LabelKind.TERM)) :=
  duplicate_bb_label_invariant [iMov, iMeta, iMov] iMov (by decide) (by decide)

/-- Claim C5.  For a block whose unique control-transfer-or-return
instruction T is its last application instruction, the transform removes T
from the original block (the segment before the copy-start label is free of
control transfers, so the original falls through into the clean copy),
relocates T to the end of the clone, and exactly one copy of any
control-transfer instruction exists afterwards. -/
theorem duplicate_bb_moves_terminator (bb : List Instr) (T : Instr)
    (hT : instrlist_last_app bb = some T)
    (honly : bb.filter (fun i => i.isCti || i.isRet) = [T]) :
    ∃ res, drstatecmp_duplicate_bb bb = some res ∧
      res.getLast? = some T ∧
      res.filter (fun i => i.isCti || i.isRet) = [T] ∧
      ∃ pre post, res = pre ++ mkLabel LabelKind.COPY_BB :: post ∧
        (∀ i ∈ pre, (i.isCti || i.isRet) = false) ∧
        stripNonApp pre = stripNonApp (removeLastApp bb) := by
  have hTp : (T.isCti || T.isRet) = true := by
    have hmem : T ∈ bb.filter (fun i => i.isCti || i.isRet) := by
      rw [honly]; simp
    exact (List.mem_filter.mp hmem).2
  obtain ⟨hTapp, u, v, hsplit, hv⟩ := instrlist_last_app_decomp hT
  have h5 : u.filter (fun i => i.isCti || i.isRet) ++
      T :: v.filter (fun i => i.isCti || i.isRet) = [T] := by
    rw [hsplit] at honly
    simpa [List.filter_append, List.filter_cons, hTp] using honly
  have hlen : (u.filter (fun i => i.isCti || i.isRet)).length +
      ((v.filter (fun i => i.isCti || i.isRet)).length + 1) = 1 := by
    have h6 := congrArg List.length h5
    simpa using h6
  have hfuv : u.filter (fun i => i.isCti || i.isRet) = [] ∧
      v.filter (fun i => i.isCti || i.isRet) = [] := by
    constructor
    · exact List.length_eq_zero.mp (by omega)
    · exact List.length_eq_zero.mp (by omega)
  have hup : ∀ i ∈ u, (i.isCti || i.isRet) = false := by
    intro i hi
    have := List.filter_eq_nil_iff.mp hfuv.1 i hi
    simpa using this
  have hvp : ∀ i ∈ v, (i.isCti || i.isRet) = false := by
    intro i hi
    have := List.filter_eq_nil_iff.mp hfuv.2 i hi
    simpa using this
  have hrm : removeLastApp bb = u ++ v := by
    rw [hsplit]; exact removeLastApp_decomp hTapp u hv
  have hrmp : ∀ i ∈ removeLastApp bb, (i.isCti || i.isRet) = false := by
    intro i hi
    rw [hrm] at hi
    rcases List.mem_append.mp hi with h1 | h1
    · exact hup i h1
    · exact hvp i h1
  have hrmf : (removeLastApp bb).filter (fun i => i.isCti || i.isRet) = [] :=
    List.filter_eq_nil_iff.mpr (fun a ha => by simp [hrmp a ha])
  have hstp : ∀ i ∈ stripNonApp (removeLastApp bb),
      (i.isCti || i.isRet) = false :=
    fun i hi => hrmp i (mem_stripNonApp hi)
  have hstf : (stripNonApp (removeLastApp bb)).filter
      (fun i => i.isCti || i.isRet) = [] :=
    List.filter_eq_nil_iff.mpr (fun a ha => by simp [hstp a ha])
  refine ⟨_, duplicate_bb_shape_cti hT hTp, ?_, ?_, ?_⟩
  · have hshape : mkLabel LabelKind.ORIG_BB :: removeLastApp bb ++
        mkLabel LabelKind.COPY_BB :: (stripNonApp (removeLastApp bb) ++
          mkLabel LabelKind.TERM :: T :: []) =
        (mkLabel LabelKind.ORIG_BB :: removeLastApp bb ++
          mkLabel LabelKind.COPY_BB :: (stripNonApp (removeLastApp bb) ++
            [mkLabel LabelKind.TERM])) ++ [T] := by simp
    rw [hshape, List.getLast?_concat]
  · simp [List.filter_append, List.filter_cons, hrmf, hstf, hTp, mkLabel]
  · refine ⟨mkLabel LabelKind.ORIG_BB :: removeLastApp bb,
      stripNonApp (removeLastApp bb) ++ mkLabel LabelKind.TERM :: T :: [],
      by simp, ?_, ?_⟩
    · intro i hi
      rcases List.mem_cons.mp hi with h1 | h1
      · subst h1; rfl
      · exact hrmp i h1
    · have : (mkLabel LabelKind.ORIG_BB).isApp = false := rfl
      simp [stripNonApp, this]

/-- Witness for claim C5 at a concrete block ending in a jump. -/
theorem duplicate_bb_moves_terminator_witness :
    ∃ res, drstatecmp_duplicate_bb [iMov, iMeta, iJmp] = some res ∧
      res.getLast? = some iJmp ∧
      res.filter (fun i => i.isCti || i.isRet) = [iJmp] ∧
      ∃ pre post, res = pre ++ mkLabel LabelKind.COPY_BB :: post ∧
        (∀ i ∈ pre, (i.isCti || i.isRet) = false) ∧
        stripNonApp pre = stripNonApp (removeLastApp [iMov, iMeta, iJmp]) :=
  duplicate_bb_moves_terminator [iMov, iMeta, iJmp] iJmp
    (by decide) (by decide)

/-! Facts about dr_insert_clean_call. -/

theorem dr_insert_clean_call_cons_ne {i : Instr} {k : LabelKind}
    (h : ¬ i.label = some k) (c : CallKind) (l : List Instr) :
    dr_insert_clean_call c k (i :: l) = i :: dr_insert_clean_call c k l := by
  simp [dr_insert_clean_call, h]

theorem dr_insert_clean_call_cons_eq {i : Instr} {k : LabelKind}
    (h : i.label = some k) (c : CallKind) (l : List Instr) :
    dr_insert_clean_call c k (i :: l) = mkCleanCall c :: i :: l := by
  simp [dr_insert_clean_call, h]

theorem dr_insert_clean_call_append {k : LabelKind} (c : CallKind)
    {A : List Instr} (h : ∀ i ∈ A, ¬ i.label = some k) (B : List Instr) :
    dr_insert_clean_call c k (A ++ B) = A ++ dr_insert_clean_call c k B := by
  induction A with
  | nil => rfl
  | cons x A ih =>
    have hx := h x (by simp)
    rw [List.cons_append, dr_insert_clean_call_cons_ne hx,
      ih (fun i hi => h i (by simp [hi]))]
    rfl

/-- Result of drstatecmp_check_reexecution on any duplicated block shape:
the save-for-restore call lands immediately before the original-start label,
the save-for-cmp call and then the restore call land immediately before the
copy-start label, and the compare call lands immediately before the
terminator label. -/
theorem check_reexecution_shape {M1 M2 M3 : List Instr}
    (h1 : ∀ i ∈ M1, i.label = none)
    (h2 : ∀ i ∈ M2, i.label = none) :
    drstatecmp_check_reexecution
      (mkLabel LabelKind.ORIG_BB :: (M1 ++ mkLabel LabelKind.COPY_BB ::
        (M2 ++ mkLabel LabelKind.TERM :: M3))) =
      mkCleanCall CallKind.saveForRestore :: mkLabel LabelKind.ORIG_BB ::
        (M1 ++ mkCleanCall CallKind.saveForCmp ::
          mkCleanCall CallKind.restoreState :: mkLabel LabelKind.COPY_BB ::
          (M2 ++ mkCleanCall CallKind.compareState ::
            mkLabel LabelKind.TERM :: M3)) := by
  have hM1c : ∀ i ∈ M1, ¬ i.label = some LabelKind.COPY_BB :=
    fun i hi => by simp [h1 i hi]
  have hM1t : ∀ i ∈ M1, ¬ i.label = some LabelKind.TERM :=
    fun i hi => by simp [h1 i hi]
  have hM2t : ∀ i ∈ M2, ¬ i.label = some LabelKind.TERM :=
    fun i hi => by simp [h2 i hi]
  have e1 : dr_insert_clean_call CallKind.saveForRestore LabelKind.ORIG_BB
      (mkLabel LabelKind.ORIG_BB :: (M1 ++ mkLabel LabelKind.COPY_BB ::
        (M2 ++ mkLabel LabelKind.TERM :: M3))) =
      mkCleanCall CallKind.saveForRestore :: mkLabel LabelKind.ORIG_BB ::
        (M1 ++ mkLabel LabelKind.COPY_BB ::
          (M2 ++ mkLabel LabelKind.TERM :: M3)) :=
    dr_insert_clean_call_cons_eq rfl _ _
  have e2 : dr_insert_clean_call CallKind.saveForCmp LabelKind.COPY_BB
      (mkCleanCall CallKind.saveForRestore :: mkLabel LabelKind.ORIG_BB ::
        (M1 ++ mkLabel LabelKind.COPY_BB ::
          (M2 ++ mkLabel LabelKind.TERM :: M3))) =
      mkCleanCall CallKind.saveForRestore :: mkLabel LabelKind.ORIG_BB ::
        (M1 ++ mkCleanCall CallKind.saveForCmp :: mkLabel LabelKind.COPY_BB ::
          (M2 ++ mkLabel LabelKind.TERM :: M3)) := by
    rw [dr_insert_clean_call_cons_ne (by simp [mkCleanCall]),
      dr_insert_clean_call_cons_ne (by simp [mkLabel]),
      dr_insert_clean_call_append _ hM1c,
      dr_insert_clean_call_cons_eq rfl]
  have e3 : dr_insert_clean_call CallKind.restoreState LabelKind.COPY_BB
      (mkCleanCall CallKind.saveForRestore :: mkLabel LabelKind.ORIG_BB ::
        (M1 ++ mkCleanCall CallKind.saveForCmp :: mkLabel LabelKind.COPY_BB ::
          (M2 ++ mkLabel LabelKind.TERM :: M3))) =
      mkCleanCall CallKind.saveForRestore :: mkLabel LabelKind.ORIG_BB ::
        (M1 ++ mkCleanCall CallKind.saveForCmp ::
          mkCleanCall CallKind.restoreState :: mkLabel LabelKind.COPY_BB ::
          (M2 ++ mkLabel LabelKind.TERM :: M3)) := by
    rw [dr_insert_clean_call_cons_ne (by simp [mkCleanCall]),
      dr_insert_clean_call_cons_ne (by simp [mkLabel]),
      dr_insert_clean_call_append _ hM1c,
      dr_insert_clean_call_cons_ne (by simp [mkCleanCall]),
      dr_insert_clean_call_cons_eq rfl]
  have e4 : dr_insert_clean_call CallKind.compareState LabelKind.TERM
      (mkCleanCall CallKind.saveForRestore :: mkLabel LabelKind.ORIG_BB ::
        (M1 ++ mkCleanCall CallKind.saveForCmp ::
          mkCleanCall CallKind.restoreState :: mkLabel LabelKind.COPY_BB ::
          (M2 ++ mkLabel LabelKind.TERM :: M3))) =
      mkCleanCall CallKind.saveForRestore :: mkLabel LabelKind.ORIG_BB ::
        (M1 ++ mkCleanCall CallKind.saveForCmp ::
          mkCleanCall CallKind.restoreState :: mkLabel LabelKind.COPY_BB ::
          (M2 ++ mkCleanCall CallKind.compareState ::
            mkLabel LabelKind.TERM :: M3)) := by
    rw [dr_insert_clean_call_cons_ne (by simp [mkCleanCall]),
      dr_insert_clean_call_cons_ne (by simp [mkLabel]),
      dr_insert_clean_call_append _ hM1t,
      dr_insert_clean_call_cons_ne (by simp [mkCleanCall]),
      dr_insert_clean_call_cons_ne (by simp [mkCleanCall]),
      dr_insert_clean_call_cons_ne (by simp [mkLabel]),
      dr_insert_clean_call_append _ hM2t,
      dr_insert_clean_call_cons_eq rfl]
  unfold drstatecmp_check_reexecution
  rw [e1, e2, e3, e4]

theorem filter_marker_eq_nil {l : List Instr}
    (hl : ∀ i ∈ l, i.label = none) (hc : ∀ i ∈ l, i.call = none) :
    l.filter (fun i => (i.call).isSome || (i.label).isSome) = [] :=
  List.filter_eq_nil_iff.mpr (fun a ha => by simp [hl a ha, hc a ha])

theorem filter_call_eq_nil {l : List Instr}
    (hc : ∀ i ∈ l, i.call = none) :
    l.filter (fun i => (i.call).isSome) = [] :=
  List.filter_eq_nil_iff.mpr (fun a ha => by simp [hc a ha])

/-- Transformed form of a concrete one-instruction side-effect-free block,
as produced by drstatecmp_post_instru_phase. -/
def transformedExample : List Instr :=
  (drstatecmp_post_instru_phase [iMov]).getD []

/-- Counterexample for claim C2 as stated: the claim counts exactly three
invisible (clean) calls per block invocation, but the transform inserts four
clean calls into every qualifying block (save-for-restore, save-for-cmp,
restore, compare), each of which executes once per invocation; on the
concrete block [iMov] the transformed block contains four clean calls, not
three. -/
theorem check_reexecution_three_calls_false :
    ((transformedExample.filter (fun i => (i.call).isSome)).length = 4) ∧
    ¬ ((transformedExample.filter (fun i => (i.call).isSome)).length = 3) := by
  decide

/-- Claim C2 (amended).  For every side-effect-free block that undergoes the
check transform, exactly four invisible (clean) calls execute per block
invocation, grouped at the three label sites and always in the order
save-for-restore (immediately before the original-block-start label), then
save-for-cmp immediately followed by restore (both immediately before the
copy-block-start label, the for_cmp capture strictly before the restore),
then compare (immediately before the terminator label); no other clean call
or label is present in the block, so no other inserted code runs between a
snapshot and its corresponding use within the same block execution. -/
theorem check_reexecution_call_order (bb : List Instr) (T : Instr)
    (hno : ∀ i ∈ bb, i.label = none)
    (hcall : ∀ i ∈ bb, i.call = none)
    (hT : instrlist_last_app bb = some T) :
    ∃ res, drstatecmp_duplicate_bb bb = some res ∧
      ((drstatecmp_check_reexecution res).filter
          (fun i => (i.call).isSome || (i.label).isSome) =
        [mkCleanCall CallKind.saveForRestore, mkLabel LabelKind.ORIG_BB,
          mkCleanCall CallKind.saveForCmp, mkCleanCall CallKind.restoreState,
          mkLabel LabelKind.COPY_BB, mkCleanCall CallKind.compareState,
          mkLabel LabelKind.TERM]) ∧
      ((drstatecmp_check_reexecution res).filter
          (fun i => (i.call).isSome)).length = 4 ∧
      (∃ A B, drstatecmp_check_reexecution res =
        A ++ mkCleanCall CallKind.saveForCmp ::
          mkCleanCall CallKind.restoreState ::
          mkLabel LabelKind.COPY_BB :: B) ∧
      (∃ C D, drstatecmp_check_reexecution res =
        C ++ mkCleanCall CallKind.compareState ::
          mkLabel LabelKind.TERM :: D) := by
  have hTl : T.label = none := hno T (instrlist_last_app_mem hT)
  have hTc : T.call = none := hcall T (instrlist_last_app_mem hT)
  by_cases hc : (T.isCti || T.isRet) = true
  · refine ⟨_, duplicate_bb_shape_cti hT hc, ?_⟩
    have h1l : ∀ i ∈ removeLastApp bb, i.label = none :=
      fun i hi => hno i (mem_removeLastApp hi)
    have h1c : ∀ i ∈ removeLastApp bb, i.call = none :=
      fun i hi => hcall i (mem_removeLastApp hi)
    have h2l : ∀ i ∈ stripNonApp (removeLastApp bb), i.label = none :=
      fun i hi => hno i (mem_removeLastApp (mem_stripNonApp hi))
    have h2c : ∀ i ∈ stripNonApp (removeLastApp bb), i.call = none :=
      fun i hi => hcall i (mem_removeLastApp (mem_stripNonApp hi))
    simp only [List.cons_append]
    rw [check_reexecution_shape h1l h2l]
    refine ⟨?_, ?_, ?_, ?_⟩
    · simp [List.filter_append, List.filter_cons,
        filter_marker_eq_nil h1l h1c, filter_marker_eq_nil h2l h2c,
        hTl, hTc, mkLabel, mkCleanCall]
    · simp [List.filter_append, List.filter_cons,
        filter_call_eq_nil h1c, filter_call_eq_nil h2c,
        hTc, mkLabel, mkCleanCall]
    · exact ⟨mkCleanCall CallKind.saveForRestore ::
        mkLabel LabelKind.ORIG_BB :: removeLastApp bb,
        stripNonApp (removeLastApp bb) ++
          mkCleanCall CallKind.compareState ::
          mkLabel LabelKind.TERM :: T :: [], by simp⟩
    · exact ⟨mkCleanCall CallKind.saveForRestore ::
        mkLabel LabelKind.ORIG_BB :: (removeLastApp bb ++
          mkCleanCall CallKind.saveForCmp ::
          mkCleanCall CallKind.restoreState ::
          mkLabel LabelKind.COPY_BB :: stripNonApp (removeLastApp bb)),
        T :: [], by simp⟩
  · have hcf : (T.isCti || T.isRet) = false := by simpa using hc
    refine ⟨_, duplicate_bb_shape_fall hT hcf, ?_⟩
    have h2l : ∀ i ∈ stripNonApp bb, i.label = none :=
      fun i hi => hno i (mem_stripNonApp hi)
    have h2c : ∀ i ∈ stripNonApp bb, i.call = none :=
      fun i hi => hcall i (mem_stripNonApp hi)
    simp only [List.cons_append]
    rw [check_reexecution_shape hno h2l]
    refine ⟨?_, ?_, ?_, ?_⟩
    · simp [List.filter_append, List.filter_cons,
        filter_marker_eq_nil hno hcall, filter_marker_eq_nil h2l h2c,
        mkLabel, mkCleanCall]
    · simp [List.filter_append, List.filter_cons,
        filter_call_eq_nil hcall, filter_call_eq_nil h2c,
        mkLabel, mkCleanCall]
    · exact ⟨mkCleanCall CallKind.saveForRestore ::
        mkLabel LabelKind.ORIG_BB :: bb,
        stripNonApp bb ++ mkCleanCall CallKind.compareState ::
          mkLabel LabelKind.TERM :: [], by simp⟩
    · exact ⟨mkCleanCall CallKind.saveForRestore ::
        mkLabel LabelKind.ORIG_BB :: (bb ++
          mkCleanCall CallKind.saveForCmp ::
          mkCleanCall CallKind.restoreState ::
          mkLabel LabelKind.COPY_BB :: stripNonApp bb),
        [], by simp⟩

/-- Witness for the amended claim C2 at a concrete block. -/
theorem check_reexecution_call_order_witness :
    ∃ res, drstatecmp_duplicate_bb [iMov, iRet] = some res ∧
      ((drstatecmp_check_reexecution res).filter
          (fun i => (i.call).isSome || (i.label).isSome) =
        [mkCleanCall CallKind.saveForRestore, mkLabel LabelKind.ORIG_BB,
          mkCleanCall CallKind.saveForCmp, mkCleanCall CallKind.restoreState,
          mkLabel LabelKind.COPY_BB, mkCleanCall CallKind.compareState,
          mkLabel LabelKind.TERM]) ∧
      ((drstatecmp_check_reexecution res).filter
          (fun i => (i.call).isSome)).length = 4 ∧
      (∃ A B, drstatecmp_check_reexecution res =
        A ++ mkCleanCall CallKind.saveForCmp ::
          mkCleanCall CallKind.restoreState ::
          mkLabel LabelKind.COPY_BB :: B) ∧
      (∃ C D, drstatecmp_check_reexecution res =
        C ++ mkCleanCall CallKind.compareState ::
          mkLabel LabelKind.TERM :: D) :=
  check_reexecution_call_order [iMov, iRet] iRet
    (by decide) (by decide) (by decide)

/-! The side-effect gate of drstatecmp_post_instru_phase. -/

theorem side_effect_free_loop_cons_meta {m : Instr} (hm : m.isApp = false)
    (l : List Instr) :
    side_effect_free_loop (m :: l) = side_effect_free_loop l := by
  simp [side_effect_free_loop, hm]

theorem side_effect_free_loop_append (l1 l2 : List Instr) :
    side_effect_free_loop (l1 ++ l2) =
      (side_effect_free_loop l1 && side_effect_free_loop l2) := by
  induction l1 with
  | nil => simp [side_effect_free_loop]
  | cons i rest ih =>
    by_cases h : (i.isApp && drstatecmp_may_have_side_effects_instr i) = true
    · simp [side_effect_free_loop, h]
    · simp only [List.cons_append]
      rw [show side_effect_free_loop (i :: (rest ++ l2)) =
          side_effect_free_loop (rest ++ l2) by
        simp [side_effect_free_loop, h]]
      rw [show side_effect_free_loop (i :: rest) =
          side_effect_free_loop rest by
        simp [side_effect_free_loop, h]]
      exact ih

/-- Claim C9.  The side-effect gate iterates only the application
instructions of the block: a meta (instrumentation) instruction that writes
memory (or is an interrupt or a syscall) does not disqualify the block, and
a block whose application instructions are side-effect free still takes the
duplication-and-compare transform. -/
theorem post_instru_gate_ignores_meta (pre post : List Instr) (m : Instr)
    (hm : m.isApp = false)
    (_hse : drstatecmp_may_have_side_effects_instr m = true) :
    side_effect_free_loop (pre ++ m :: post) =
      side_effect_free_loop (pre ++ post) ∧
    (side_effect_free_loop (pre ++ post) = true →
      drstatecmp_post_instru_phase (pre ++ m :: post) =
        (drstatecmp_duplicate_bb (pre ++ m :: post)).map
          drstatecmp_check_reexecution) := by
  have key : side_effect_free_loop (pre ++ m :: post) =
      side_effect_free_loop (pre ++ post) := by
    rw [side_effect_free_loop_append, side_effect_free_loop_cons_meta hm,
      side_effect_free_loop_append]
  refine ⟨key, fun h => ?_⟩
  simp [drstatecmp_post_instru_phase, key.trans h]

/-- Witness for claim C9: a meta store inserted in the middle of a
side-effect-free block does not disqualify it. -/
theorem post_instru_gate_ignores_meta_witness :
    side_effect_free_loop ([iMov] ++ iMetaStore :: [iMov]) =
      side_effect_free_loop ([iMov] ++ [iMov]) ∧
    (side_effect_free_loop ([iMov] ++ [iMov]) = true →
      drstatecmp_post_instru_phase ([iMov] ++ iMetaStore :: [iMov]) =
        (drstatecmp_duplicate_bb ([iMov] ++ iMetaStore :: [iMov])).map
          drstatecmp_check_reexecution) :=
  post_instru_gate_ignores_meta [iMov] [iMov] iMetaStore
    (by decide) (by decide)

/-! Module lifecycle (drstatecmp_init / drstatecmp_exit). -/

/-- Status codes of the drstatecmp API (drstatecmp_status_t), as used by
drstatecmp_init and drstatecmp_exit. -/
inductive drstatecmp_status_t where
  | DRSTATECMP_SUCCESS
  | DRSTATECMP_ERROR
  | DRSTATECMP_ERROR_ALREADY_INITIALIZED
  | DRSTATECMP_ERROR_NOT_INITIALIZED
deriving DecidableEq

/-- Module-lifecycle state: the process-wide counter drstatecmp_init_count
together with the registration footprint left with the host framework (the
thread-local-storage slot, the reserved label-note range, the subscribed
thread and block callbacks) and two history counters recording how many
times real registration and real teardown have run.  The drmgr registration
primitives live outside this repository snapshot and are modelled from the
spec as succeeding. -/
structure ModuleState where
  drstatecmp_init_count : Int
  tls_allocated : Bool
  labels_reserved : Bool
  callbacks_registered : Bool
  registrations : Nat
  teardowns : Nat
deriving DecidableEq

/-- State of the module before any drstatecmp_init call. -/
def initialModuleState : ModuleState :=
  { drstatecmp_init_count := 0, tls_allocated := false,
    labels_reserved := false, callbacks_registered := false,
    registrations := 0, teardowns := 0 }

/-- Lifecycle entry drstatecmp_init: atomically add 1 to the init counter
(dr_atomic_add32_return_sum); when the resulting count is not 1 return the
already-initialized status with no registration, otherwise perform the real
registration (tls slot, label-note range, thread-init, thread-exit and
bb-post-instrumentation callbacks) and return success. -/
def drstatecmp_init (s : ModuleState) : drstatecmp_status_t × ModuleState :=
  let count := s.drstatecmp_init_count + 1
  let s1 := { s with drstatecmp_init_count := count }
  if count ≠ 1 then
    (drstatecmp_status_t.DRSTATECMP_ERROR_ALREADY_INITIALIZED, s1)
  else
    (drstatecmp_status_t.DRSTATECMP_SUCCESS,
      { s1 with
          tls_allocated := true
          labels_reserved := true
          callbacks_registered := true
          registrations := s1.registrations + 1 })

/-- Lifecycle exit drstatecmp_exit: atomically add -1 to the init counter;
when the resulting count is not 0 return the not-initialized status with no
teardown, otherwise unregister the callbacks and the tls slot and return
success. -/
def drstatecmp_exit (s : ModuleState) : drstatecmp_status_t × ModuleState :=
  let count := s.drstatecmp_init_count - 1
  let s1 := { s with drstatecmp_init_count := count }
  if count ≠ 0 then
    (drstatecmp_status_t.DRSTATECMP_ERROR_NOT_INITIALIZED, s1)
  else
    (drstatecmp_status_t.DRSTATECMP_SUCCESS,
      { s1 with
          tls_allocated := false
          callbacks_registered := false
          teardowns := s1.teardowns + 1 })

/-- Claim C7.  drstatecmp_init increments the global init counter in every
case; only the transition to count 1 performs real registration, and every
call made while already initialized returns the already-initialized status
and performs no re-registration. -/
theorem drstatecmp_init_registers_once (s : ModuleState) :
    ((drstatecmp_init s).2.drstatecmp_init_count =
      s.drstatecmp_init_count + 1) ∧
    (s.drstatecmp_init_count = 0 →
      (drstatecmp_init s).1 = drstatecmp_status_t.DRSTATECMP_SUCCESS ∧
      (drstatecmp_init s).2.registrations = s.registrations + 1 ∧
      (drstatecmp_init s).2.tls_allocated = true ∧
      (drstatecmp_init s).2.labels_reserved = true ∧
      (drstatecmp_init s).2.callbacks_registered = true) ∧
    (1 ≤ s.drstatecmp_init_count →
      (drstatecmp_init s).1 =
        drstatecmp_status_t.DRSTATECMP_ERROR_ALREADY_INITIALIZED ∧
      (drstatecmp_init s).2.registrations = s.registrations ∧
      (drstatecmp_init s).2.tls_allocated = s.tls_allocated ∧
      (drstatecmp_init s).2.labels_reserved = s.labels_reserved ∧
      (drstatecmp_init s).2.callbacks_registered = s.callbacks_registered) := by
  refine ⟨?_, ?_, ?_⟩
  · by_cases h : s.drstatecmp_init_count + 1 ≠ 1 <;> simp [drstatecmp_init, h]
  · intro h
    have h1 : ¬ (s.drstatecmp_init_count + 1 ≠ 1) := by omega
    simp [drstatecmp_init, h1]
  · intro h
    have h1 : s.drstatecmp_init_count + 1 ≠ 1 := by omega
    simp [drstatecmp_init, h1]

/-- Witness for claim C7: the first init call from the initial state
performs the registration. -/
theorem drstatecmp_init_registers_once_witness :
    (drstatecmp_init initialModuleState).1 =
      drstatecmp_status_t.DRSTATECMP_SUCCESS ∧
    (drstatecmp_init initialModuleState).2.registrations =
      initialModuleState.registrations + 1 ∧
    (drstatecmp_init initialModuleState).2.tls_allocated = true ∧
    (drstatecmp_init initialModuleState).2.labels_reserved = true ∧
    (drstatecmp_init initialModuleState).2.callbacks_registered = true :=
  (drstatecmp_init_registers_once initialModuleState).2.1 rfl

/-- Module state reached by the call sequence init(); exit(); starting from
the initial state. -/
def stateAfterInitExit : ModuleState :=
  (drstatecmp_exit (drstatecmp_init initialModuleState).2).2

/-- Counterexample for claim C8 as stated: after init(); exit(); a second
exit() returns the not-initialized status and performs no teardown, but it
does not leave the module state unchanged: the shared init counter is
decremented from 0 to -1. -/
theorem second_exit_changes_state :
    (drstatecmp_exit stateAfterInitExit).1 =
      drstatecmp_status_t.DRSTATECMP_ERROR_NOT_INITIALIZED ∧
    (drstatecmp_exit stateAfterInitExit).2 ≠ stateAfterInitExit ∧
    (drstatecmp_exit stateAfterInitExit).2.drstatecmp_init_count = -1 ∧
    (drstatecmp_exit stateAfterInitExit).2.teardowns =
      stateAfterInitExit.teardowns := by
  decide

/-- Claim C8 (amended).  Lifecycle misuse (double-init, exit-without-init)
is surfaced as a distinct already-initialized / not-initialized status, is
non-fatal, and performs no registration and no teardown, leaving every part
of the module state unchanged except the shared reference counter, which is
still incremented (init) or decremented (exit); in particular after init();
exit(); a second exit() returns the not-initialized status without
attempting teardown twice. -/
theorem lifecycle_misuse_no_teardown (s : ModuleState) :
    (1 ≤ s.drstatecmp_init_count →
      (drstatecmp_init s).1 =
        drstatecmp_status_t.DRSTATECMP_ERROR_ALREADY_INITIALIZED ∧
      (drstatecmp_init s).2 =
        { s with drstatecmp_init_count := s.drstatecmp_init_count + 1 }) ∧
    (s.drstatecmp_init_count ≤ 0 →
      (drstatecmp_exit s).1 =
        drstatecmp_status_t.DRSTATECMP_ERROR_NOT_INITIALIZED ∧
      (drstatecmp_exit s).2 =
        { s with drstatecmp_init_count := s.drstatecmp_init_count - 1 }) := by
  constructor
  · intro h
    have h1 : s.drstatecmp_init_count + 1 ≠ 1 := by omega
    simp [drstatecmp_init, h1]
  · intro h
    have h1 : s.drstatecmp_init_count - 1 ≠ 0 := by omega
    simp [drstatecmp_exit, h1]

/-- Witness for the amended claim C8: a second exit after init(); exit();
returns the not-initialized status and changes only the counter. -/
theorem lifecycle_misuse_no_teardown_witness :
    (drstatecmp_exit stateAfterInitExit).1 =
      drstatecmp_status_t.DRSTATECMP_ERROR_NOT_INITIALIZED ∧
    (drstatecmp_exit stateAfterInitExit).2 =
      { stateAfterInitExit with
          drstatecmp_init_count :=
            stateAfterInitExit.drstatecmp_init_count - 1 } :=
  (lifecycle_misuse_no_teardown stateAfterInitExit).2 (by decide)

/-! Machine-state comparison (drstatecmp_compare_state_call, X86 X64
configuration). -/

/-- Machine context dr_mcontext_t for the x86-64 build, the configuration
compared in the X86/X64 branch of drstatecmp_compare_state_call.  Modelled
from the spec for the layout (the structure is declared by the host
framework, outside this repository snapshot): all general-purpose registers,
the flags register, the stack pointer, the program counter, the operand-mask
slots and the SIMD slots.  Register values are machine words modelled as
natural numbers; the opmask and simd arrays are lists whose length is the
fixed slot count of the build (MCXT_NUM_OPMASK_SLOTS, MCXT_NUM_SIMD_SLOTS). -/
structure dr_mcontext_t where
  xdi : Nat
  xsi : Nat
  xbp : Nat
  xax : Nat
  xbx : Nat
  xcx : Nat
  xdx : Nat
  r8 : Nat
  r9 : Nat
  r10 : Nat
  r11 : Nat
  r12 : Nat
  r13 : Nat
  r14 : Nat
  r15 : Nat
  xflags : Nat
  xsp : Nat
  pc : Nat
  opmask : List Nat
  simd : List Nat
deriving DecidableEq

/-- Check of one named register, drstatecmp_check_gpr_value:
DR_ASSERT_MSG(reg_value == reg_expected, name), modelled as emitting the
assertion message name exactly when the two values differ. -/
def drstatecmp_check_gpr_value (name : String) (reg_value reg_expected : Nat) :
    List String :=
  if reg_value = reg_expected then [] else [name]

/-- Check of an array of register slots (the opmask and simd loops of
drstatecmp_compare_state_call combined with drstatecmp_check_opmask_value /
drstatecmp_check_simd_value): every slot pair is compared and each mismatch
emits the fixed assertion message of that register family. -/
def drstatecmp_check_slot_values (msg : String) (values expected : List Nat) :
    List String :=
  (values.zip expected).filterMap
    (fun p => if p.1 = p.2 then none else some msg)

/-- Comparison drstatecmp_compare_state_call: compare the recorded
instrumented-run context against the expected (live) context field by field
in source order, collecting the assertion messages of every mismatch. -/
def drstatecmp_compare_state_call (mc_instrumented mc_expected : dr_mcontext_t) :
    List String :=
  drstatecmp_check_gpr_value "xdi" mc_instrumented.xdi mc_expected.xdi ++
  drstatecmp_check_gpr_value "xsi" mc_instrumented.xsi mc_expected.xsi ++
  drstatecmp_check_gpr_value "xbp" mc_instrumented.xbp mc_expected.xbp ++
  drstatecmp_check_gpr_value "xax" mc_instrumented.xax mc_expected.xax ++
  drstatecmp_check_gpr_value "xbx" mc_instrumented.xbx mc_expected.xbx ++
  drstatecmp_check_gpr_value "xcx" mc_instrumented.xcx mc_expected.xcx ++
  drstatecmp_check_gpr_value "xdx" mc_instrumented.xdx mc_expected.xdx ++
  drstatecmp_check_gpr_value "r8" mc_instrumented.r8 mc_expected.r8 ++
  drstatecmp_check_gpr_value "r9" mc_instrumented.r9 mc_expected.r9 ++
  drstatecmp_check_gpr_value "r10" mc_instrumented.r10 mc_expected.r10 ++
  drstatecmp_check_gpr_value "r11" mc_instrumented.r11 mc_expected.r11 ++
  drstatecmp_check_gpr_value "r12" mc_instrumented.r12 mc_expected.r12 ++
  drstatecmp_check_gpr_value "r13" mc_instrumented.r13 mc_expected.r13 ++
  drstatecmp_check_gpr_value "r14" mc_instrumented.r14 mc_expected.r14 ++
  drstatecmp_check_gpr_value "r15" mc_instrumented.r15 mc_expected.r15 ++
  drstatecmp_check_gpr_value "xflags" mc_instrumented.xflags mc_expected.xflags ++
  drstatecmp_check_slot_values "opmask mismatch"
    mc_instrumented.opmask mc_expected.opmask ++
  drstatecmp_check_gpr_value "xsp" mc_instrumented.xsp mc_expected.xsp ++
  drstatecmp_check_slot_values "SIMD mismatch"
    mc_instrumented.simd mc_expected.simd

theorem check_gpr_eq_nil {n : String} {v e : Nat} :
    drstatecmp_check_gpr_value n v e = [] ↔ v = e := by
  by_cases h : v = e <;> simp [drstatecmp_check_gpr_value, h]

theorem mem_check_gpr {x n : String} {v e : Nat} :
    x ∈ drstatecmp_check_gpr_value n v e ↔ (x = n ∧ ¬ v = e) := by
  by_cases h : v = e <;> simp [drstatecmp_check_gpr_value, h]

theorem forall_zip_eq {vs es : List Nat} (h : vs.length = es.length) :
    (∀ p ∈ vs.zip es, p.1 = p.2) ↔ vs = es := by
  induction vs generalizing es with
  | nil =>
    cases es with
    | nil => simp
    | cons b es => simp at h
  | cons a vs ih =>
    cases es with
    | nil => simp at h
    | cons b es =>
      have h2 : vs.length = es.length := by simpa using h
      constructor
      · intro hall
        have hab : a = b := hall (a, b) (by simp [List.zip_cons_cons])
        have htail : vs = es := (ih h2).mp
          (fun p hp => hall p (by simp [List.zip_cons_cons, hp]))
        rw [hab, htail]
      · intro he p hp
        injection he with hab htail
        rw [List.zip_cons_cons] at hp
        rcases List.mem_cons.mp hp with h1 | h1
        · subst h1; exact hab
        · exact (ih h2).mpr htail p h1

theorem check_slot_values_eq_nil {msg : String} {vs es : List Nat}
    (h : vs.length = es.length) :
    drstatecmp_check_slot_values msg vs es = [] ↔ vs = es := by
  rw [drstatecmp_check_slot_values, List.filterMap_eq_nil_iff]
  constructor
  · intro hall
    refine (forall_zip_eq h).mp (fun p hp => ?_)
    have hf := hall p hp
    by_cases hpe : p.1 = p.2
    · exact hpe
    · simp [hpe] at hf
  · intro he p hp
    have := (forall_zip_eq h).mpr he p hp
    simp [this]

theorem mem_check_slot_values {x msg : String} {vs es : List Nat}
    (h : vs.length = es.length) :
    x ∈ drstatecmp_check_slot_values msg vs es ↔ (x = msg ∧ ¬ vs = es) := by
  rw [drstatecmp_check_slot_values]
  simp only [List.mem_filterMap]
  constructor
  · rintro ⟨p, hp, hf⟩
    by_cases hpe : p.1 = p.2
    · simp [hpe] at hf
    · simp only [hpe, if_neg, if_false, Option.some.injEq] at hf
      refine ⟨hf.symm, fun he => hpe ((forall_zip_eq h).mpr he p hp)⟩
  · rintro ⟨hx, hne⟩
    have hnall : ¬ ∀ p ∈ vs.zip es, p.1 = p.2 :=
      fun hall => hne ((forall_zip_eq h).mp hall)
    push_neg at hnall
    obtain ⟨p, hp, hpe⟩ := hnall
    exact ⟨p, hp, by simp [hpe, hx]⟩

/-- Claim C3.  The compare step compares the recorded instrumented-run
snapshot against the expected state field by field: it reports no mismatch
exactly when every general-purpose register, the flags register, every
operand-mask slot, the stack pointer and every SIMD slot agree, and an
assertion message is emitted exactly for the diverging fields, each carrying
the name of that field (the fixed family message for the opmask and SIMD
register arrays). -/
theorem compare_state_covers_all_fields (mi me : dr_mcontext_t)
    (hop : mi.opmask.length = me.opmask.length)
    (hsimd : mi.simd.length = me.simd.length) :
    (drstatecmp_compare_state_call mi me = [] ↔
      (mi.xdi = me.xdi ∧ mi.xsi = me.xsi ∧ mi.xbp = me.xbp ∧
        mi.xax = me.xax ∧ mi.xbx = me.xbx ∧ mi.xcx = me.xcx ∧
        mi.xdx = me.xdx ∧ mi.r8 = me.r8 ∧ mi.r9 = me.r9 ∧
        mi.r10 = me.r10 ∧ mi.r11 = me.r11 ∧ mi.r12 = me.r12 ∧
        mi.r13 = me.r13 ∧ mi.r14 = me.r14 ∧ mi.r15 = me.r15 ∧
        mi.xflags = me.xflags ∧ mi.opmask = me.opmask ∧
        mi.xsp = me.xsp ∧ mi.simd = me.simd)) ∧
    (∀ name, name ∈ drstatecmp_compare_state_call mi me ↔
      ((name = "xdi" ∧ ¬ mi.xdi = me.xdi) ∨
        (name = "xsi" ∧ ¬ mi.xsi = me.xsi) ∨
        (name = "xbp" ∧ ¬ mi.xbp = me.xbp) ∨
        (name = "xax" ∧ ¬ mi.xax = me.xax) ∨
        (name = "xbx" ∧ ¬ mi.xbx = me.xbx) ∨
        (name = "xcx" ∧ ¬ mi.xcx = me.xcx) ∨
        (name = "xdx" ∧ ¬ mi.xdx = me.xdx) ∨
        (name = "r8" ∧ ¬ mi.r8 = me.r8) ∨
        (name = "r9" ∧ ¬ mi.r9 = me.r9) ∨
        (name = "r10" ∧ ¬ mi.r10 = me.r10) ∨
        (name = "r11" ∧ ¬ mi.r11 = me.r11) ∨
        (name = "r12" ∧ ¬ mi.r12 = me.r12) ∨
        (name = "r13" ∧ ¬ mi.r13 = me.r13) ∨
        (name = "r14" ∧ ¬ mi.r14 = me.r14) ∨
        (name = "r15" ∧ ¬ mi.r15 = me.r15) ∨
        (name = "xflags" ∧ ¬ mi.xflags = me.xflags) ∨
        (name = "opmask mismatch" ∧ ¬ mi.opmask = me.opmask) ∨
        (name = "xsp" ∧ ¬ mi.xsp = me.xsp) ∨
        (name = "SIMD mismatch" ∧ ¬ mi.simd = me.simd))) := by
  constructor
  · simp [drstatecmp_compare_state_call, List.append_eq_nil, check_gpr_eq_nil,
      check_slot_values_eq_nil hop, check_slot_values_eq_nil hsimd]
  · intro name
    simp [drstatecmp_compare_state_call, List.mem_append, mem_check_gpr,
      mem_check_slot_values hop, mem_check_slot_values hsimd]

/-- Expected (clean re-execution) context of the concrete clobbering
scenario: every register zero except xbx, which the application set to 1. -/
def mcExpectedExample : dr_mcontext_t :=
  { xdi := 0, xsi := 0, xbp := 0, xax := 0, xbx := 1, xcx := 0, xdx := 0,
    r8 := 0, r9 := 0, r10 := 0, r11 := 0, r12 := 0, r13 := 0, r14 := 0,
    r15 := 0, xflags := 0, xsp := 0, pc := 0, opmask := [0, 0],
    simd := [0, 0] }

/-- Recorded instrumented-run context of the concrete clobbering scenario:
identical except that the instrumentation clobbered xbx with 99. -/
def mcInstrumentedExample : dr_mcontext_t :=
  { xdi := 0, xsi := 0, xbp := 0, xax := 0, xbx := 99, xcx := 0, xdx := 0,
    r8 := 0, r9 := 0, r10 := 0, r11 := 0, r12 := 0, r13 := 0, r14 := 0,
    r15 := 0, xflags := 0, xsp := 0, pc := 0, opmask := [0, 0],
    simd := [0, 0] }

/-- Witness for claim C3 at the concrete single-register clobbering
scenario. -/
theorem compare_state_covers_all_fields_witness :
    (drstatecmp_compare_state_call mcInstrumentedExample mcExpectedExample =
        [] ↔
      (mcInstrumentedExample.xdi = mcExpectedExample.xdi ∧
        mcInstrumentedExample.xsi = mcExpectedExample.xsi ∧
        mcInstrumentedExample.xbp = mcExpectedExample.xbp ∧
        mcInstrumentedExample.xax = mcExpectedExample.xax ∧
        mcInstrumentedExample.xbx = mcExpectedExample.xbx ∧
        mcInstrumentedExample.xcx = mcExpectedExample.xcx ∧
        mcInstrumentedExample.xdx = mcExpectedExample.xdx ∧
        mcInstrumentedExample.r8 = mcExpectedExample.r8 ∧
        mcInstrumentedExample.r9 = mcExpectedExample.r9 ∧
        mcInstrumentedExample.r10 = mcExpectedExample.r10 ∧
        mcInstrumentedExample.r11 = mcExpectedExample.r11 ∧
        mcInstrumentedExample.r12 = mcExpectedExample.r12 ∧
        mcInstrumentedExample.r13 = mcExpectedExample.r13 ∧
        mcInstrumentedExample.r14 = mcExpectedExample.r14 ∧
        mcInstrumentedExample.r15 = mcExpectedExample.r15 ∧
        mcInstrumentedExample.xflags = mcExpectedExample.xflags ∧
        mcInstrumentedExample.opmask = mcExpectedExample.opmask ∧
        mcInstrumentedExample.xsp = mcExpectedExample.xsp ∧
        mcInstrumentedExample.simd = mcExpectedExample.simd)) ∧
    (∀ name, name ∈ drstatecmp_compare_state_call
        mcInstrumentedExample mcExpectedExample ↔
      ((name = "xdi" ∧ ¬ mcInstrumentedExample.xdi = mcExpectedExample.xdi) ∨
        (name = "xsi" ∧ ¬ mcInstrumentedExample.xsi = mcExpectedExample.xsi) ∨
        (name = "xbp" ∧ ¬ mcInstrumentedExample.xbp = mcExpectedExample.xbp) ∨
        (name = "xax" ∧ ¬ mcInstrumentedExample.xax = mcExpectedExample.xax) ∨
        (name = "xbx" ∧ ¬ mcInstrumentedExample.xbx = mcExpectedExample.xbx) ∨
        (name = "xcx" ∧ ¬ mcInstrumentedExample.xcx = mcExpectedExample.xcx) ∨
        (name = "xdx" ∧ ¬ mcInstrumentedExample.xdx = mcExpectedExample.xdx) ∨
        (name = "r8" ∧ ¬ mcInstrumentedExample.r8 = mcExpectedExample.r8) ∨
        (name = "r9" ∧ ¬ mcInstrumentedExample.r9 = mcExpectedExample.r9) ∨
        (name = "r10" ∧ ¬ mcInstrumentedExample.r10 = mcExpectedExample.r10) ∨
        (name = "r11" ∧ ¬ mcInstrumentedExample.r11 = mcExpectedExample.r11) ∨
        (name = "r12" ∧ ¬ mcInstrumentedExample.r12 = mcExpectedExample.r12) ∨
        (name = "r13" ∧ ¬ mcInstrumentedExample.r13 = mcExpectedExample.r13) ∨
        (name = "r14" ∧ ¬ mcInstrumentedExample.r14 = mcExpectedExample.r14) ∨
        (name = "r15" ∧ ¬ mcInstrumentedExample.r15 = mcExpectedExample.r15) ∨
        (name = "xflags" ∧
          ¬ mcInstrumentedExample.xflags = mcExpectedExample.xflags) ∨
        (name = "opmask mismatch" ∧
          ¬ mcInstrumentedExample.opmask = mcExpectedExample.opmask) ∨
        (name = "xsp" ∧ ¬ mcInstrumentedExample.xsp = mcExpectedExample.xsp) ∨
        (name = "SIMD mismatch" ∧
          ¬ mcInstrumentedExample.simd = mcExpectedExample.simd))) :=
  compare_state_covers_all_fields mcInstrumentedExample mcExpectedExample
    rfl rfl

end Drstatecmp
